import Mathlib

/-!
Verification of the flaky-test aggregation pipeline.

The development shallowly embeds the two scripts of the repository:

* `scripts/coleta_dados.py` — the extractor: per-project metadata
  resolution (`get_project_info_from_csv`, `detect_environment`) and
  conversion of a nested test report into flat rows (`process_json`).
* `scripts/interpret2.py` — the classifier (`analyze_flaky_tests`):
  grouping of canonical records by a derived test identity and the
  cross-environment flakiness verdicts.

Python strings are modelled as Lean `String`s; the handful of Python
string operations the scripts use (`str.split`, `str.strip`,
`str.join`, `str.lower`, the `in` substring test, `sorted`) are
embedded as structurally recursive functions over `List Char` so that
every definition evaluates by kernel reduction.  Python `set`s are
modelled as `Finset String` (the scripts only compare sets, subtract
them, take their size and sort their elements).
-/

/-! ### Python string primitives -/

/-- Python `str.split(sep)` for a one-character separator: splits at
every occurrence of `sep`, keeping empty fields; on the empty string it
returns one empty field, so the result is always non-empty. -/
def pySplit (sep : Char) : List Char → List (List Char)
  | [] => [[]]
  | c :: cs =>
    match pySplit sep cs with
    | [] => if c = sep then [[], []] else [[c]]
    | h :: t => if c = sep then [] :: h :: t else (c :: h) :: t

/-- Python `sep.join(parts)` for a one-character separator. -/
def pyJoin (sep : Char) : List (List Char) → List Char
  | [] => []
  | [x] => x
  | x :: y :: xs => x ++ sep :: pyJoin sep (y :: xs)

/-- Python `str.strip()`: drop whitespace from both ends. -/
def pyStrip (l : List Char) : List Char :=
  ((l.dropWhile Char.isWhitespace).reverse.dropWhile Char.isWhitespace).reverse

/-- Python `needle in hay` on strings: substring containment test. -/
def pyContains (needle : List Char) : List Char → Bool
  | [] => needle.isEmpty
  | a :: t => needle.isPrefixOf (a :: t) || pyContains needle t

/-- Code-point comparison of two strings, as Python compares `str`
values: lexicographic on the character sequences. -/
def strLtB : List Char → List Char → Bool
  | [], [] => false
  | [], _ :: _ => true
  | _ :: _, [] => false
  | x :: xs, y :: ys =>
    if x.toNat < y.toNat then true
    else if y.toNat < x.toNat then false
    else strLtB xs ys

/-- Non-strict string comparison derived from `strLtB`. -/
def strLeB (a b : String) : Bool := !(strLtB b.data a.data)

/-- Insert a string into a (sorted) list of strings. -/
def insertSorted (x : String) : List String → List String
  | [] => [x]
  | y :: ys => if strLeB x y then x :: y :: ys else y :: insertSorted x ys

/-- Python `sorted` on a list of strings: insertion sort by code-point
order. -/
def sortStrings (l : List String) : List String :=
  l.foldr insertSorted []

/-- First-occurrence deduplication with an accumulator of already seen
elements (helper for `dedupFirst`). -/
def dedupAux {α : Type} [DecidableEq α] : List α → List α → List α
  | [], _ => []
  | x :: xs, seen =>
    if x ∈ seen then dedupAux xs seen else x :: dedupAux xs (x :: seen)

/-- The distinct elements of a list in first-occurrence order, as
`pandas.Series.unique` and `dict` grouping enumerate them. -/
def dedupFirst {α : Type} [DecidableEq α] (l : List α) : List α :=
  dedupAux l []

/-! ### Extractor: `scripts/coleta_dados.py` -/

/-- Lines 6–15 of `coleta_dados.py`: keyword fallback for the
environment, checked on the lowercased name in the fixed order
mac, linux/ubuntu, windows/win. -/
def detect_environment (name : String) : String :=
  let n := name.data.map Char.toLower
  if pyContains "mac".data n then "mac"
  else if pyContains "linux".data n || pyContains "ubuntu".data n then "linux"
  else if pyContains "windows".data n || pyContains "win".data n then "windows"
  else "unknown"

/-- Lines 17–27 of `coleta_dados.py`: metadata resolution.  The parsed
CSV is a list of rows, each row a list of fields.  Fewer than two rows
yields `(none, none)`; otherwise row index 1 is re-joined with commas,
re-split on commas, and the first and last fields are trimmed. -/
def get_project_info_from_csv (lines : List (List String)) :
    Option String × Option String :=
  if h : lines.length < 2 then (none, none)
  else
    let second_line := lines.get ⟨1, by omega⟩
    let line_str := pyJoin ',' (second_line.map String.data)
    let parts := pySplit ',' line_str
    (some (String.mk (pyStrip (parts.headD []))),
     some (String.mk (pyStrip (parts.getLastD []))))

/-- One execution stage of a test (`setup`, `call` or `teardown`).  A
stage is modelled as `some` of this structure exactly when the stage
key is present with a non-empty (truthy) dictionary; `outcome` and a
`crash.lineno` entry may each be absent. -/
structure StageData where
  outcome : Option String
  crash_lineno : Option Int
deriving DecidableEq

/-- One entry of the report's `tests` list. -/
structure TestEntry where
  nodeid : Option String
  lineno : Option Int
  setup : Option StageData
  call : Option StageData
  teardown : Option StageData
deriving DecidableEq

/-- One entry of the report's `collectors` list. -/
structure Collector where
  outcome : Option String
  nodeid : Option String
deriving DecidableEq

/-- The parsed JSON report: its two top-level collections. -/
structure Report where
  tests : List TestEntry
  collectors : List Collector
deriving DecidableEq

/-- One flat output row of the extractor (one CSV line of
`final_all.csv`). -/
structure Row where
  project : String
  test_name : Option String
  outcome : Option String
  lineno : Option Int
  environment : String
deriving DecidableEq

/-- Lines 41–50 of `coleta_dados.py`: the row built from a chosen
stage: outcome from the stage, line number from `crash.lineno` when
present, otherwise from the test's own `lineno`. -/
def stage_row (project environment : String) (t : TestEntry)
    (stage_data : StageData) : Row :=
  { project := project
    test_name := t.nodeid
    outcome := stage_data.outcome
    lineno :=
      match stage_data.crash_lineno with
      | some n => some n
      | none => t.lineno
    environment := environment }

/-- Lines 36–51 of `coleta_dados.py`: the loop over
`["setup", "call", "teardown"]` with `break` — the first truthy stage
produces the single row of this test. -/
def rows_for_test (project environment : String) (t : TestEntry) :
    List Row :=
  match [t.setup, t.call, t.teardown].findSome? id with
  | none => []
  | some stage_data => [stage_row project environment t stage_data]

/-- Lines 53–61 of `coleta_dados.py`: a collector whose outcome is
`"failed"` yields one `collection_error` row; other collectors yield
nothing. -/
def collector_rows (project environment : String) (c : Collector) :
    List Row :=
  if c.outcome = some "failed" then
    [{ project := project
       test_name := some (c.nodeid.getD "<unknown>")
       outcome := some "collection_error"
       lineno := none
       environment := environment }]
  else []

/-- Lines 29–63 of `coleta_dados.py`: all rows of one report. -/
def process_json (data : Report) (project environment : String) :
    List Row :=
  data.tests.flatMap (rows_for_test project environment) ++
    data.collectors.flatMap (collector_rows project environment)

/-- The per-subdirectory inputs that the directory walk of `main`
hands to the processing step: the parsed metadata CSV, its path (used
by the keyword fallback) and the parsed JSON report. -/
structure ProjectInput where
  csv_lines : List (List String)
  csv_path : String
  report : Report
deriving DecidableEq

/-- Lines 115–121 of `coleta_dados.py`: one iteration of the main
loop after both files were found.  A falsy project name (resolution
failed, or an empty first field) skips the project (`none`); otherwise
the environment falls back to keyword detection on the CSV path when
the CSV-derived environment is empty, and the report is processed. -/
def process_subdir (p : ProjectInput) : Option (List Row) :=
  match get_project_info_from_csv p.csv_lines with
  | (some project_name, some env_from_csv) =>
    if project_name = "" then none
    else
      let environment :=
        if env_from_csv = "" then detect_environment p.csv_path
        else env_from_csv
      some (process_json p.report project_name environment)
  | _ => none

/-- Lines 78–129 of `coleta_dados.py`: the rows appended to
`final_all.csv` over the whole run — skipped projects contribute
nothing, the others are concatenated in order. -/
def main_rows (projects : List ProjectInput) : List Row :=
  projects.flatMap (fun p => (process_subdir p).getD [])

/-! ### Classifier: `scripts/interpret2.py` -/

/-- One canonical record of the interchange CSV `final_all.csv` /
`final.csv`, as the classifier reads it. -/
structure Record where
  project : String
  test_name : String
  outcome : String
  lineno : Option Int
  environment : String
deriving DecidableEq

/-- Line 40 of `interpret2.py`:
`df['test_id'] = df['project'] + '::' + df['test_name']`. -/
def test_id (r : Record) : String := r.project ++ "::" ++ r.test_name

/-- Line 43 of `interpret2.py`: the environment universe — the set of
distinct environments anywhere in the input. -/
def all_environments (records : List Record) : Finset String :=
  (records.map Record.environment).toFinset

/-- Lines 50–52 of `interpret2.py`: the set of environments of the
group of one test identity (`groupby('test_id')['environment'].apply(set)`). -/
def test_environments (records : List Record) (g : String) :
    Finset String :=
  ((records.filter (fun r => test_id r == g)).map Record.environment).toFinset

/-- Line 85 of `interpret2.py`:
`df[['test_id', 'project', 'test_name', 'outcome']].drop_duplicates()`;
since `test_id` is a function of `project` and `test_name`, the
distinct `(project, test_name, outcome)` triples in first-occurrence
order. -/
def test_details (records : List Record) :
    List (String × String × String) :=
  dedupFirst (records.map (fun r => (r.project, r.test_name, r.outcome)))

/-- The `test_id` column of a `test_details` row. -/
def detail_id (d : String × String × String) : String :=
  d.1 ++ "::" ++ d.2.1

/-- Lines 44–64 of `interpret2.py`: the flagged test identities.  The
group keys are enumerated in sorted order (`pandas.groupby` sorts its
keys) and a key is kept exactly when its environment set differs from
the universe. -/
def flaky_test_ids (records : List Record) : List String :=
  (sortStrings (dedupFirst (records.map test_id))).filter
    (fun g => !(test_environments records g == all_environments records))

/-- One output row of the classifier (a row of the merged
`flaky_result` data frame). -/
structure Verdict where
  project : String
  test_name : String
  outcome : String
  failing_environments : List String
  passing_environments : List String
  num_failing_envs : Nat
  num_passing_envs : Nat
deriving DecidableEq

/-- The `project::test_name` key a `Verdict` row carries (its merge
key `test_id` re-computed from the representative fields). -/
def verdict_id (v : Verdict) : String := v.project ++ "::" ++ v.test_name

/-- The distinct environments of the group of one test identity as a
list in first-occurrence order (the elements of the Python set
`failing_envs` of line 61 of `interpret2.py`). -/
def group_env_list (records : List Record) (g : String) : List String :=
  dedupFirst ((records.filter (fun r => test_id r == g)).map Record.environment)

/-- The distinct environments of the whole input as a list in
first-occurrence order (the elements of `all_environments`). -/
def all_env_list (records : List Record) : List String :=
  dedupFirst (records.map Record.environment)

/-- Lines 57–91 of `interpret2.py`: the verdict rows for one flaky
test identity — the per-identity dictionary of lines 67–73 merged
(`how='left'` on `test_id`) with the matching `test_details` rows.
The set operations of lines 65–72 are computed on the deduplicated
environment lists: `missing_envs = all_environments - failing_envs`
is the filter below, and `sorted(list(s))`, `len(s)` are the sort and
length of the corresponding deduplicated list. -/
def verdict_rows (records : List Record) (g : String) : List Verdict :=
  let failing_envs := group_env_list records g
  let missing_envs :=
    (all_env_list records).filter (fun e => !(failing_envs.contains e))
  ((test_details records).filter (fun d => detail_id d == g)).map
    (fun d =>
      { project := d.1
        test_name := d.2.1
        outcome := d.2.2
        failing_environments := sortStrings failing_envs
        passing_environments := sortStrings missing_envs
        num_failing_envs := failing_envs.length
        num_passing_envs := missing_envs.length })

/-- Lines 39–93 of `interpret2.py`: the full classification of a
record collection — one block of merged rows per flaky test identity,
in sorted identity order. -/
def analyze_flaky_tests (records : List Record) : List Verdict :=
  (flaky_test_ids records).flatMap (verdict_rows records)

/-- The three ways reading the interchange CSV can go in
lines 19–37 of `interpret2.py`: the file is missing, `read_csv`
raises, or a record list is obtained. -/
inductive ReadResult where
  | notFound : ReadResult
  | parseError (msg : String) : ReadResult
  | ok (records : List Record) : ReadResult
deriving DecidableEq

/-- Lines 19–93 of `interpret2.py` including the two `except`
branches: the printed diagnostics (informational prints of the
success path are not modelled) together with the returned data frame.
Both failure branches print an error and return an empty frame. -/
def analyze_flaky_tests_run (path : String) (input : ReadResult) :
    List String × List Verdict :=
  match input with
  | ReadResult.notFound =>
    (["Error: File " ++ "'" ++ path ++ "'" ++ " not found."], [])
  | ReadResult.parseError e =>
    (["Error reading CSV file: " ++ e], [])
  | ReadResult.ok records => ([], analyze_flaky_tests records)

/-! ### Concrete inputs used to instantiate the claims -/

/-- A record whose test name starts with a colon. -/
def exC1a : Record := ⟨"a", ":b", "failed", none, "linux"⟩

/-- A record with a different project and test name than `exC1a` but
the same derived key. -/
def exC1b : Record := ⟨"a:", "b", "failed", none, "mac"⟩

/-- A colon-free record for the key-injectivity instance. -/
def exW1 : Record := ⟨"pr", "tn", "failed", none, "linux"⟩

/-- A second colon-free record for the key-injectivity instance. -/
def exW2 : Record := ⟨"pr2", "tn", "failed", none, "mac"⟩

/-- A collection in which the group `p1::t1` carries two different
outcomes and is flaky. -/
def exC2 : List Record :=
  [⟨"p1", "t1", "failed", none, "linux"⟩,
   ⟨"p1", "t1", "passed", none, "linux"⟩,
   ⟨"p2", "t2", "failed", none, "mac"⟩]

/-- The end-to-end scenario of the specification: `t1` fails on linux
and mac only, `t2` fails everywhere; the universe is
linux, mac, windows. -/
def exC5 : List Record :=
  [⟨"p1", "t1", "failed", none, "linux"⟩,
   ⟨"p1", "t1", "failed", none, "mac"⟩,
   ⟨"p1", "t2", "failed", none, "linux"⟩,
   ⟨"p1", "t2", "failed", none, "mac"⟩,
   ⟨"p1", "t2", "failed", none, "windows"⟩]

/-- Two tests observed in one environment each, universe of size two:
both are flaky. -/
def exC6 : List Record :=
  [⟨"p1", "t1", "failed", none, "linux"⟩,
   ⟨"p2", "t2", "failed", none, "mac"⟩]

/-- The first verdict row the classifier produces on `exC6`. -/
def exC6v : Verdict := ⟨"p1", "t1", "failed", ["linux"], ["mac"], 1, 1⟩

/-- A collection whose environment universe is the single environment
linux, with diverse outcomes. -/
def exC7 : List Record :=
  [⟨"p1", "t1", "failed", none, "linux"⟩,
   ⟨"p1", "t2", "passed", none, "linux"⟩]

/-- A populated setup stage. -/
def exStageSetup : StageData := ⟨some "failed", some 10⟩

/-- A populated call stage. -/
def exStageCall : StageData := ⟨some "passed", none⟩

/-- A test entry with both `setup` and `call` populated: only the
setup-derived record may appear. -/
def exTest : TestEntry :=
  ⟨some "tests/test_a.py::test_one", some 5, some exStageSetup,
   some exStageCall, none⟩

/-- The metadata instance of the specification: header row `a,b,c` and
data row `proj1, , , , linux`, as the CSV reader parses them. -/
def exMeta : List (List String) :=
  [["a", "b", "c"], ["proj1", " ", " ", " ", " linux"]]

/-- A project whose metadata has only a header row. -/
def exShortProject : ProjectInput :=
  ⟨[["header-only"]], "runs/macos/data.csv", ⟨[], []⟩⟩

/-! ### Basic lemmas about the embedded Python primitives -/

theorem mem_dedupAux {α : Type} [DecidableEq α] (l : List α) :
    ∀ (seen : List α) (x : α), x ∈ dedupAux l seen ↔ x ∈ l ∧ x ∉ seen := by
  induction l with
  | nil => intro seen x; simp [dedupAux]
  | cons a t ih =>
    intro seen x
    by_cases ha : a ∈ seen
    · rw [dedupAux, if_pos ha, ih]
      simp only [List.mem_cons]
      constructor
      · rintro ⟨hx, hns⟩
        exact ⟨Or.inr hx, hns⟩
      · rintro ⟨hx | hx, hns⟩
        · exact absurd (hx ▸ ha) hns
        · exact ⟨hx, hns⟩
    · rw [dedupAux, if_neg ha]
      simp only [List.mem_cons, ih]
      constructor
      · rintro (rfl | ⟨hx, hns⟩)
        · exact ⟨Or.inl rfl, ha⟩
        · exact ⟨Or.inr hx, fun hc => hns (Or.inr hc)⟩
      · rintro ⟨rfl | hx, hns⟩
        · exact Or.inl rfl
        · by_cases hxa : x = a
          · exact Or.inl hxa
          · exact Or.inr ⟨hx, fun hc => hc.elim hxa hns⟩

theorem mem_dedupFirst {α : Type} [DecidableEq α] (l : List α) (x : α) :
    x ∈ dedupFirst l ↔ x ∈ l := by
  simp [dedupFirst, mem_dedupAux]

theorem nodup_dedupAux {α : Type} [DecidableEq α] (l : List α) :
    ∀ seen : List α, (dedupAux l seen).Nodup := by
  induction l with
  | nil => intro seen; simp [dedupAux]
  | cons a t ih =>
    intro seen
    by_cases ha : a ∈ seen
    · rw [dedupAux, if_pos ha]
      exact ih seen
    · rw [dedupAux, if_neg ha]
      refine List.nodup_cons.mpr ⟨?_, ih (a :: seen)⟩
      intro hmem
      rcases (mem_dedupAux t (a :: seen) a).1 hmem with ⟨-, hns⟩
      exact hns (List.mem_cons_self a seen)

theorem nodup_dedupFirst {α : Type} [DecidableEq α] (l : List α) :
    (dedupFirst l).Nodup :=
  nodup_dedupAux l []

theorem toFinset_dedupFirst {α : Type} [DecidableEq α] (l : List α) :
    (dedupFirst l).toFinset = l.toFinset := by
  ext x; simp [List.mem_toFinset, mem_dedupFirst]

theorem length_dedupFirst {α : Type} [DecidableEq α] (l : List α) :
    (dedupFirst l).length = l.toFinset.card := by
  rw [← toFinset_dedupFirst, List.toFinset_card_of_nodup (nodup_dedupFirst l)]

theorem perm_insertSorted (x : String) (l : List String) :
    (insertSorted x l).Perm (x :: l) := by
  induction l with
  | nil => simp [insertSorted]
  | cons y ys ih =>
    by_cases h : strLeB x y = true
    · simp [insertSorted, h]
    · simp only [insertSorted, if_neg h]
      exact ((ih.cons y).trans (List.Perm.swap x y ys))

theorem perm_sortStrings (l : List String) : (sortStrings l).Perm l := by
  induction l with
  | nil => simp [sortStrings]
  | cons x xs ih =>
    have : sortStrings (x :: xs) = insertSorted x (sortStrings xs) := rfl
    rw [this]
    exact (perm_insertSorted x (sortStrings xs)).trans (ih.cons x)

theorem mem_sortStrings (l : List String) (x : String) :
    x ∈ sortStrings l ↔ x ∈ l :=
  (perm_sortStrings l).mem_iff

theorem nodup_sortStrings (l : List String) (h : l.Nodup) :
    (sortStrings l).Nodup :=
  ((perm_sortStrings l).nodup_iff).2 h

theorem toFinset_sortStrings (l : List String) :
    (sortStrings l).toFinset = l.toFinset :=
  List.toFinset_eq_of_perm _ _ (perm_sortStrings l)

theorem pyContains_iff (needle : List Char) :
    ∀ hay : List Char, pyContains needle hay = true ↔ needle <:+: hay := by
  intro hay
  induction hay with
  | nil =>
    simp [pyContains, List.isEmpty_iff]
  | cons a t ih =>
    simp only [pyContains, Bool.or_eq_true, ih, List.isPrefixOf_iff_prefix]
    rw [List.infix_cons_iff]

/-! ### Lemmas about the classifier -/

theorem toFinset_group_env_list (records : List Record) (g : String) :
    (group_env_list records g).toFinset = test_environments records g :=
  toFinset_dedupFirst _

theorem toFinset_all_env_list (records : List Record) :
    (all_env_list records).toFinset = all_environments records :=
  toFinset_dedupFirst _

theorem test_environments_subset (records : List Record) (g : String) :
    test_environments records g ⊆ all_environments records := by
  intro e he
  simp only [test_environments, List.mem_toFinset, List.mem_map] at he
  rcases he with ⟨r, hr, rfl⟩
  rcases List.mem_filter.1 hr with ⟨hrmem, -⟩
  exact List.mem_toFinset.2 (List.mem_map.2 ⟨r, hrmem, rfl⟩)

theorem test_environments_nonempty (records : List Record) (g : String)
    (h : ∃ r ∈ records, test_id r = g) :
    (test_environments records g).Nonempty := by
  rcases h with ⟨r, hr, hid⟩
  refine ⟨r.environment, ?_⟩
  simp only [test_environments, List.mem_toFinset, List.mem_map]
  exact ⟨r, List.mem_filter.2 ⟨hr, by simp [hid]⟩, rfl⟩

theorem mem_flaky_test_ids (records : List Record) (g : String) :
    g ∈ flaky_test_ids records ↔
      (∃ r ∈ records, test_id r = g) ∧
        test_environments records g ≠ all_environments records := by
  simp only [flaky_test_ids, List.mem_filter, mem_sortStrings, mem_dedupFirst,
    List.mem_map, Bool.not_eq_true', beq_eq_false_iff_ne, ne_eq]

theorem nodup_flaky_test_ids (records : List Record) :
    (flaky_test_ids records).Nodup :=
  (nodup_sortStrings _ (nodup_dedupFirst _)).filter _

theorem verdict_id_of_mem_verdict_rows (records : List Record) (g : String)
    (v : Verdict) (hv : v ∈ verdict_rows records g) : verdict_id v = g := by
  simp only [verdict_rows, List.mem_map, List.mem_filter] at hv
  rcases hv with ⟨d, ⟨-, hdg⟩, rfl⟩
  exact beq_iff_eq.1 hdg

theorem fields_of_mem_verdict_rows (records : List Record) (g : String)
    (v : Verdict) (hv : v ∈ verdict_rows records g) :
    v.failing_environments = sortStrings (group_env_list records g) ∧
      v.passing_environments =
        sortStrings ((all_env_list records).filter
          (fun e => !((group_env_list records g).contains e))) ∧
      v.num_failing_envs = (group_env_list records g).length ∧
      v.num_passing_envs =
        ((all_env_list records).filter
          (fun e => !((group_env_list records g).contains e))).length := by
  simp only [verdict_rows, List.mem_map, List.mem_filter] at hv
  rcases hv with ⟨d, ⟨-, -⟩, rfl⟩
  exact ⟨rfl, rfl, rfl, rfl⟩

theorem toFinset_passing_list (records : List Record) (g : String) :
    ((all_env_list records).filter
        (fun e => !((group_env_list records g).contains e))).toFinset =
      all_environments records \ test_environments records g := by
  ext e
  simp only [List.mem_toFinset, List.mem_filter, Finset.mem_sdiff,
    Bool.not_eq_true']
  constructor
  · rintro ⟨h1, h2⟩
    refine ⟨(toFinset_all_env_list records) ▸ List.mem_toFinset.2 h1, ?_⟩
    intro hc
    have hmem : e ∈ group_env_list records g := by
      rw [← List.mem_toFinset, toFinset_group_env_list]
      exact hc
    have helem : List.elem e (group_env_list records g) = true :=
      List.elem_iff.mpr hmem
    have hcont : (group_env_list records g).contains e = true := helem
    rw [hcont] at h2
    exact absurd h2 (by simp)
  · rintro ⟨h1, h2⟩
    refine ⟨?_, ?_⟩
    · rw [← List.mem_toFinset, toFinset_all_env_list]
      exact h1
    · rw [← Bool.not_eq_true]
      intro hc
      apply h2
      rw [← toFinset_group_env_list, List.mem_toFinset]
      exact List.elem_iff.1 (by simpa [List.contains] using hc)

theorem mem_analyze_flaky_tests (records : List Record) (v : Verdict) :
    v ∈ analyze_flaky_tests records ↔
      ∃ g ∈ flaky_test_ids records, v ∈ verdict_rows records g := by
  simp [analyze_flaky_tests, List.mem_flatMap]

theorem verdict_rows_nonempty (records : List Record) (g : String)
    (h : ∃ r ∈ records, test_id r = g) :
    ∃ v, v ∈ verdict_rows records g := by
  rcases h with ⟨r, hr, hid⟩
  have hd : (r.project, r.test_name, r.outcome) ∈ test_details records :=
    (mem_dedupFirst _ _).2 (List.mem_map.2 ⟨r, hr, rfl⟩)
  have hkey : (detail_id (r.project, r.test_name, r.outcome) == g) = true := by
    rw [beq_iff_eq]
    exact hid
  have hdf : (r.project, r.test_name, r.outcome) ∈
      (test_details records).filter (fun d => detail_id d == g) :=
    List.mem_filter.2 ⟨hd, hkey⟩
  exact ⟨_, List.mem_map_of_mem _ hdf⟩

theorem filter_flatMap_key (g : String) (f : String → List Verdict) :
    ∀ l : List String, l.Nodup → g ∈ l →
      (∀ g2 ∈ l, ∀ v ∈ f g2, verdict_id v = g2) →
      (l.flatMap f).filter (fun v => verdict_id v == g) = f g := by
  intro l
  induction l with
  | nil => intro _ hg _; exact absurd hg (List.not_mem_nil g)
  | cons a t ih =>
    intro hnd hg hf
    rw [List.flatMap_cons, List.filter_append]
    rcases List.mem_cons.1 hg with rfl | hgt
    · have h1 : (f g).filter (fun v => verdict_id v == g) = f g :=
        List.filter_eq_self.2 (fun v hv => by
          simp [hf g (List.mem_cons_self g t) v hv])
      have h2 : (t.flatMap f).filter (fun v => verdict_id v == g) = [] := by
        apply List.filter_eq_nil_iff.2
        intro v hv
        rcases List.mem_flatMap.1 hv with ⟨g2, hg2, hvg2⟩
        have hvid := hf g2 (List.mem_cons_of_mem g hg2) v hvg2
        have hne : g2 ≠ g := by
          intro h
          exact (List.nodup_cons.1 hnd).1 (h ▸ hg2)
        simp [hvid, hne]
      rw [h1, h2, List.append_nil]
    · have hne : a ≠ g := by
        intro h
        exact (List.nodup_cons.1 hnd).1 (h ▸ hgt)
      have h1 : (f a).filter (fun v => verdict_id v == g) = [] := by
        apply List.filter_eq_nil_iff.2
        intro v hv
        simp [hf a (List.mem_cons_self a t) v hv, hne]
      rw [h1, List.nil_append]
      exact ih (List.nodup_cons.1 hnd).2 hgt
        (fun g2 hg2 => hf g2 (List.mem_cons_of_mem a hg2))

/-! ### Supporting lemmas for the key-injectivity claim -/

theorem data_test_id (r : Record) :
    (test_id r).data = r.project.data ++ ':' :: ':' :: r.test_name.data := by
  simp [test_id, String.data_append]

theorem append_sep_inj (c : Char) :
    ∀ l1 l2 r1 r2 : List Char, c ∉ l1 → c ∉ l2 →
      l1 ++ c :: c :: r1 = l2 ++ c :: c :: r2 → l1 = l2 ∧ r1 = r2 := by
  intro l1
  induction l1 with
  | nil =>
    intro l2 r1 r2 h1 h2 heq
    cases l2 with
    | nil =>
      refine ⟨rfl, ?_⟩
      simpa using heq
    | cons b t =>
      exfalso
      simp only [List.nil_append, List.cons_append, List.cons.injEq] at heq
      rcases heq with ⟨hcb, -⟩
      refine h2 ?_
      rw [hcb]
      exact List.mem_cons_self b t
  | cons a t ih =>
    intro l2 r1 r2 h1 h2 heq
    cases l2 with
    | nil =>
      exfalso
      simp only [List.cons_append, List.nil_append, List.cons.injEq] at heq
      rcases heq with ⟨hac, -⟩
      refine h1 ?_
      rw [hac]
      exact List.mem_cons_self c t
    | cons b t2 =>
      simp only [List.cons_append, List.cons.injEq] at heq
      rcases heq with ⟨hab, htail⟩
      have h1t : c ∉ t := fun hc => h1 (List.mem_cons_of_mem a hc)
      have h2t : c ∉ t2 := fun hc => h2 (List.mem_cons_of_mem b hc)
      rcases ih t2 r1 r2 h1t h2t htail with ⟨he1, he2⟩
      constructor
      · rw [hab, he1]
      · exact he2

/-! ### The claims -/

/-- C1 (counterexample): the claim that the `TestIdentity` key is
injective fails on the code: the separator `::` is not guaranteed
absent from the components.  The records `exC1a` (project `a`, test
`:b`) and `exC1b` (project `a:`, test `b`) have distinct
(project, test_identifier) pairs yet equal keys, and the classifier
groups them together: the group of their common key holds both
environments. -/
theorem C1_counterexample :
    test_id exC1a = test_id exC1b ∧
      ¬(exC1a.project = exC1b.project ∧ exC1a.test_name = exC1b.test_name) ∧
      test_environments [exC1a, exC1b] (test_id exC1a) = {"linux", "mac"} := by
  decide

/-- C1 (amended): the derived key `project ++ "::" ++ test_name` is
injective on records whose `project` component does not contain the
separator character; under that restriction two records get the same
key exactly when they agree on project and test name. -/
theorem C1_test_id_injective (r1 r2 : Record)
    (h1 : (':' : Char) ∉ r1.project.data)
    (h2 : (':' : Char) ∉ r2.project.data) :
    test_id r1 = test_id r2 ↔
      r1.project = r2.project ∧ r1.test_name = r2.test_name := by
  constructor
  · intro heq
    have hdata := congrArg String.data heq
    rw [data_test_id, data_test_id] at hdata
    rcases append_sep_inj ':' r1.project.data r2.project.data
      r1.test_name.data r2.test_name.data h1 h2 hdata with ⟨hp, hn⟩
    exact ⟨String.ext hp, String.ext hn⟩
  · rintro ⟨hp, hn⟩
    simp [test_id, hp, hn]

/-- C1 (witness): the amended key-injectivity law applied to the
colon-free records `exW1` and `exW2`. -/
theorem C1_witness :
    ((':' : Char) ∉ exW1.project.data) ∧
      ((':' : Char) ∉ exW2.project.data) ∧
      (test_id exW1 = test_id exW2 ↔
        exW1.project = exW2.project ∧ exW1.test_name = exW2.test_name) :=
  ⟨by decide, by decide,
    C1_test_id_injective exW1 exW2 (by decide) (by decide)⟩

/-- C2 (counterexample): the claim that each flaky `TestIdentity`
yields exactly one verdict row fails on the code: in `exC2` the flaky
identity `p1::t1` carries two distinct outcomes, and the merge of
line 86 of `interpret2.py` duplicates its verdict row — the output
holds two rows for that identity. -/
theorem C2_counterexample :
    "p1::t1" ∈ flaky_test_ids exC2 ∧
      ((analyze_flaky_tests exC2).filter
          (fun v => verdict_id v == "p1::t1")).length = 2 := by
  decide

/-- C2 (amended): for every flaky test identity the output holds one
verdict row per distinct `(project, test_name, outcome)` triple of the
group, in first-seen order — the rows carrying that identity are
exactly `verdict_rows`, and their representative triples are exactly
the deduplicated triples matching the identity.  In particular the
output has exactly one row for the identity precisely when the group
carries a single distinct triple. -/
theorem C2_rows_per_identity (records : List Record) (g : String)
    (hg : g ∈ flaky_test_ids records) :
    (analyze_flaky_tests records).filter (fun v => verdict_id v == g) =
        verdict_rows records g ∧
      ((analyze_flaky_tests records).filter
            (fun v => verdict_id v == g)).map
          (fun v => (v.project, v.test_name, v.outcome)) =
        (test_details records).filter (fun d => detail_id d == g) := by
  have hblock :=
    filter_flatMap_key g (verdict_rows records) (flaky_test_ids records)
      (nodup_flaky_test_ids records) hg
      (fun g2 _ v hv => verdict_id_of_mem_verdict_rows records g2 v hv)
  refine ⟨hblock, ?_⟩
  simp only [analyze_flaky_tests]
  rw [hblock]
  simp only [verdict_rows, List.map_map]
  conv_rhs =>
    rw [← List.map_id ((test_details records).filter (fun d => detail_id d == g))]
  apply List.map_congr_left
  rintro ⟨x, y, z⟩ -
  rfl

/-- C2 (witness): the amended row law applied to the flaky identity
`p2::t2` of `exC2`. -/
theorem C2_witness :
    ("p2::t2" ∈ flaky_test_ids exC2) ∧
      (analyze_flaky_tests exC2).filter
          (fun v => verdict_id v == "p2::t2") =
        verdict_rows exC2 "p2::t2" :=
  ⟨by decide, (C2_rows_per_identity exC2 "p2::t2" (by decide)).1⟩

/-- C3 (counterexample): the claim that a read failure aborts the run
with an outcome distinguishable from valid-but-empty input fails on
the code: on a missing interchange file the classifier returns an
empty verdict set, the very value it returns for a successfully read
empty record collection. -/
theorem C3_counterexample :
    (analyze_flaky_tests_run "final.csv" ReadResult.notFound).2 =
        (analyze_flaky_tests_run "final.csv" (ReadResult.ok [])).2 ∧
      (analyze_flaky_tests_run "final.csv" ReadResult.notFound).2 = [] := by
  decide

/-- C3 (amended): when the interchange artifact is absent or
unparseable the classifier prints an error diagnostic but does not
abort: it returns an empty verdict set, equal as a value to the
success outcome on a valid-but-empty input, so only the printed
diagnostic distinguishes the two. -/
theorem C3_read_failure_empty_result (path e : String) :
    (analyze_flaky_tests_run path ReadResult.notFound).2 = [] ∧
      (analyze_flaky_tests_run path (ReadResult.parseError e)).2 = [] ∧
      (analyze_flaky_tests_run path ReadResult.notFound).1 ≠ [] ∧
      (analyze_flaky_tests_run path (ReadResult.parseError e)).1 ≠ [] ∧
      (analyze_flaky_tests_run path ReadResult.notFound).2 =
        (analyze_flaky_tests_run path (ReadResult.ok [])).2 := by
  refine ⟨rfl, rfl, ?_, ?_, rfl⟩ <;> simp [analyze_flaky_tests_run]

/-- C4: per test entry, the extractor emits at most one record; the
record comes from the first populated stage in the fixed order
`setup`, `call`, `teardown`; later populated stages contribute
nothing; a test with no populated stage contributes nothing; and the
per-report function agrees with the per-test logic. -/
theorem C4_first_stage_wins (project environment : String) (t : TestEntry) :
    (rows_for_test project environment t).length ≤ 1 ∧
      (∀ sd, t.setup = some sd →
        rows_for_test project environment t =
          [stage_row project environment t sd]) ∧
      (∀ sd, t.setup = none → t.call = some sd →
        rows_for_test project environment t =
          [stage_row project environment t sd]) ∧
      (∀ sd, t.setup = none → t.call = none → t.teardown = some sd →
        rows_for_test project environment t =
          [stage_row project environment t sd]) ∧
      (t.setup = none → t.call = none → t.teardown = none →
        rows_for_test project environment t = []) ∧
      process_json ⟨[t], []⟩ project environment =
        rows_for_test project environment t := by
  obtain ⟨n, ln, s, c, td⟩ := t
  refine ⟨?_, ?_, ?_, ?_, ?_, ?_⟩ <;>
    cases s <;> cases c <;> cases td <;>
      simp [rows_for_test, process_json, List.findSome?]

/-- C4 (witness): on a test with populated `setup` and `call` stages
only the setup-derived record appears. -/
theorem C4_witness :
    rows_for_test "projX" "linux" exTest =
      [stage_row "projX" "linux" exTest exStageSetup] :=
  (C4_first_stage_wins "projX" "linux" exTest).2.1 exStageSetup rfl

/-- C5: a test identity receives a verdict if and only if some record
carries it and its group's environment set differs from the
environment universe; concretely, on `exC5` (universe
linux, mac, windows) the identity `p1::t1` — failing on linux and mac
only — is the one flaky test, with failing environments linux, mac and
passing environment windows, while `t2`, present in all three
environments, is not flagged. -/
theorem C5_flaky_iff (records : List Record) (g : String) :
    ((∃ v ∈ analyze_flaky_tests records, verdict_id v = g) ↔
        (∃ r ∈ records, test_id r = g) ∧
          test_environments records g ≠ all_environments records) ∧
      analyze_flaky_tests exC5 =
        [⟨"p1", "t1", "failed", ["linux", "mac"], ["windows"], 2, 1⟩] ∧
      all_environments exC5 = {"linux", "mac", "windows"} ∧
      (∀ v ∈ analyze_flaky_tests exC5, v.test_name ≠ "t2") := by
  refine ⟨?_, by decide, by decide, by decide⟩
  constructor
  · rintro ⟨v, hv, hvid⟩
    rcases (mem_analyze_flaky_tests records v).1 hv with ⟨g2, hg2, hvrows⟩
    have hid := verdict_id_of_mem_verdict_rows records g2 v hvrows
    rw [hid] at hvid
    subst hvid
    exact (mem_flaky_test_ids records g2).1 hg2
  · rintro ⟨hex, hne⟩
    have hg : g ∈ flaky_test_ids records :=
      (mem_flaky_test_ids records g).2 ⟨hex, hne⟩
    rcases verdict_rows_nonempty records g hex with ⟨v, hv⟩
    exact ⟨v, (mem_analyze_flaky_tests records v).2 ⟨g, hg, hv⟩,
      verdict_id_of_mem_verdict_rows records g v hv⟩

/-- C5 (witness): the flakiness criterion instantiated on `exC2` and
the identity `p1::t1`, whose group set differs from the universe. -/
theorem C5_witness :
    (∃ r ∈ exC2, test_id r = "p1::t1") ∧
      test_environments exC2 "p1::t1" ≠ all_environments exC2 ∧
      (∃ v ∈ analyze_flaky_tests exC2, verdict_id v = "p1::t1") :=
  ⟨by decide, by decide,
    (C5_flaky_iff exC2 "p1::t1").1.mpr ⟨by decide, by decide⟩⟩

/-- C6: every produced verdict partitions the run's environment
universe: its failing and passing environment lists are disjoint,
together they cover exactly the universe, and both are non-empty. -/
theorem C6_verdict_partition (records : List Record) (v : Verdict)
    (hv : v ∈ analyze_flaky_tests records) :
    Disjoint v.failing_environments.toFinset
        v.passing_environments.toFinset ∧
      v.failing_environments.toFinset ∪ v.passing_environments.toFinset =
        all_environments records ∧
      v.failing_environments ≠ [] ∧ v.passing_environments ≠ [] := by
  rcases (mem_analyze_flaky_tests records v).1 hv with ⟨g, hg, hrows⟩
  rcases (mem_flaky_test_ids records g).1 hg with ⟨hex, hne⟩
  rcases fields_of_mem_verdict_rows records g v hrows with ⟨hf, hp, -, -⟩
  have hfF : v.failing_environments.toFinset = test_environments records g := by
    rw [hf, toFinset_sortStrings, toFinset_group_env_list]
  have hpF : v.passing_environments.toFinset =
      all_environments records \ test_environments records g := by
    rw [hp, toFinset_sortStrings, toFinset_passing_list]
  have hsub := test_environments_subset records g
  refine ⟨?_, ?_, ?_, ?_⟩
  · rw [hfF, hpF]
    exact Finset.sdiff_disjoint.symm
  · rw [hfF, hpF]
    exact Finset.union_sdiff_of_subset hsub
  · intro h0
    have hne2 := test_environments_nonempty records g hex
    rw [← hfF, h0] at hne2
    simp at hne2
  · intro h0
    have hne2 : (all_environments records \
        test_environments records g).Nonempty := by
      rw [Finset.sdiff_nonempty]
      intro hsub2
      exact hne (Finset.Subset.antisymm hsub hsub2)
    rw [← hpF, h0] at hne2
    simp at hne2

/-- C6 (witness): the partition law applied to the first verdict the
classifier produces on `exC6`. -/
theorem C6_witness :
    exC6v ∈ analyze_flaky_tests exC6 ∧
      (Disjoint exC6v.failing_environments.toFinset
          exC6v.passing_environments.toFinset ∧
        exC6v.failing_environments.toFinset ∪
            exC6v.passing_environments.toFinset = all_environments exC6 ∧
        exC6v.failing_environments ≠ [] ∧
        exC6v.passing_environments ≠ []) :=
  ⟨by decide, C6_verdict_partition exC6 exC6v (by decide)⟩

/-- C7: when the environment universe of the input has exactly one
element, the classifier flags nothing, whatever the records hold. -/
theorem C7_single_environment_universe (records : List Record)
    (h : (all_environments records).card = 1) :
    analyze_flaky_tests records = [] := by
  have hids : flaky_test_ids records = [] := by
    apply List.filter_eq_nil_iff.2
    intro g hgmem
    have hg : ∃ r ∈ records, test_id r = g := by
      have h1 := (mem_dedupFirst _ g).1 ((mem_sortStrings _ g).1 hgmem)
      rcases List.mem_map.1 h1 with ⟨r, hr, hid⟩
      exact ⟨r, hr, hid⟩
    have heq : test_environments records g = all_environments records := by
      apply Finset.eq_of_subset_of_card_le (test_environments_subset records g)
      have hpos := (test_environments_nonempty records g hg).card_pos
      omega
    simp [heq]
  simp [analyze_flaky_tests, hids]

/-- C7 (witness): the single-environment law applied to `exC7`, whose
two records with different outcomes share the environment linux. -/
theorem C7_witness :
    (all_environments exC7).card = 1 ∧ analyze_flaky_tests exC7 = [] :=
  ⟨by decide, C7_single_environment_universe exC7 (by decide)⟩

/-- C8: metadata resolution reads exactly row index 1: on the
specification's instance (header `a,b,c`, data row
`proj1, , , , linux`) it yields project `proj1` and environment
`linux`, trimming the surrounding whitespace of the first and last
comma-separated fields; with fewer than two rows it fails, and the
main loop then skips that project while the remaining projects are
still processed. -/
theorem C8_metadata_resolution :
    get_project_info_from_csv exMeta = (some "proj1", some "linux") ∧
      (∀ (row0 row1 : List String) (rest : List (List String)),
        get_project_info_from_csv (row0 :: row1 :: rest) =
          (some (String.mk (pyStrip
              ((pySplit ',' (pyJoin ',' (row1.map String.data))).headD []))),
           some (String.mk (pyStrip
              ((pySplit ',' (pyJoin ',' (row1.map String.data))).getLastD []))))) ∧
      (∀ lines : List (List String), lines.length < 2 →
        get_project_info_from_csv lines = (none, none)) ∧
      (∀ (p : ProjectInput) (ps : List ProjectInput),
        p.csv_lines.length < 2 →
          process_subdir p = none ∧ main_rows (p :: ps) = main_rows ps) := by
  refine ⟨by decide, ?_, ?_, ?_⟩
  · intro row0 row1 rest
    have hlen : ¬ (row0 :: row1 :: rest).length < 2 := by
      simp [List.length_cons]
    simp [get_project_info_from_csv, hlen]
  · intro lines h
    simp [get_project_info_from_csv, h]
  · intro p ps h
    have hnone : process_subdir p = none := by
      simp [process_subdir, get_project_info_from_csv, h]
    exact ⟨hnone, by simp [main_rows, hnone]⟩

/-- C8 (witness): the resolution-failure law applied to a project with
a header-only metadata file. -/
theorem C8_witness :
    exShortProject.csv_lines.length < 2 ∧
      process_subdir exShortProject = none ∧
      main_rows [exShortProject] = main_rows [] :=
  ⟨by decide,
    (C8_metadata_resolution.2.2.2 exShortProject [] (by decide)).1,
    (C8_metadata_resolution.2.2.2 exShortProject [] (by decide)).2⟩

/-- C9: a successfully read interchange artifact with zero data rows
yields an empty verdict sequence, produced normally (no error
branch is involved: the run wrapper returns it with no diagnostic). -/
theorem C9_empty_interchange :
    analyze_flaky_tests [] = [] ∧
      analyze_flaky_tests_run "final.csv" (ReadResult.ok []) = ([], []) := by
  decide

/-- C10: the keyword fallback is total — it always answers one of
mac, linux, windows, unknown — and its checks run in the fixed order
mac, then linux/ubuntu, then windows/win; hence a name containing
`darwin` (case-insensitively) but none of `mac`, `linux`, `ubuntu` is
detected as windows, because `win` is a substring of `darwin`. -/
theorem C10_keyword_fallback (name : String) :
    (detect_environment name = "mac" ∨ detect_environment name = "linux" ∨
        detect_environment name = "windows" ∨
        detect_environment name = "unknown") ∧
      (pyContains "darwin".data (name.data.map Char.toLower) = true →
        pyContains "mac".data (name.data.map Char.toLower) = false →
        pyContains "linux".data (name.data.map Char.toLower) = false →
        pyContains "ubuntu".data (name.data.map Char.toLower) = false →
        detect_environment name = "windows") := by
  constructor
  · simp only [detect_environment]
    by_cases h1 : pyContains "mac".data (name.data.map Char.toLower) = true
    · simp [h1]
    · by_cases h2 : (pyContains "linux".data (name.data.map Char.toLower) ||
          pyContains "ubuntu".data (name.data.map Char.toLower)) = true
      · simp [h1, h2]
      · by_cases h3 : (pyContains "windows".data (name.data.map Char.toLower) ||
            pyContains "win".data (name.data.map Char.toLower)) = true
        · simp [h1, h2, h3]
        · simp [h1, h2, h3]
  · intro hdar hmac hlin hub
    have hwin : pyContains "win".data (name.data.map Char.toLower) = true := by
      rw [pyContains_iff]
      have hsub : "win".data <:+: "darwin".data := by decide
      exact hsub.trans ((pyContains_iff _ _).1 hdar)
    simp only [detect_environment]
    simp [hmac, hlin, hub, hwin]

/-- C10 (witness): the priority law applied to the name `Darwin-x86`,
which contains `darwin` but none of `mac`, `linux`, `ubuntu`. -/
theorem C10_witness :
    pyContains "darwin".data ("Darwin-x86".data.map Char.toLower) = true ∧
      detect_environment "Darwin-x86" = "windows" :=
  ⟨by decide,
    (C10_keyword_fallback "Darwin-x86").2
      (by decide) (by decide) (by decide) (by decide)⟩
